import Mathlib

/-!
Verification of the multi-version schema storage of tiflow
(`cdc/entry/schema_storage.go`).

The Go code is shallowly embedded: maps become functions `κ → Option α`,
sets become `Int → Bool`, in-place mutation becomes record update, Go's
fallible methods return `Except SErr _`.  Timestamps (`uint64`) become `Nat`
(the code only compares and copies them, no arithmetic), table/schema ids
(`int64`) become `Int`.
-/

/-- Go map, modelled as a function into Option.  Mutation becomes functional update. -/
abbrev GoMap (κ α : Type) : Type := κ → Option α

def GoMap.empty {κ α : Type} : GoMap κ α := fun _ => none

def GoMap.insert {κ α : Type} [DecidableEq κ] (m : GoMap κ α) (k : κ) (v : α) : GoMap κ α :=
  fun x => if x = k then some v else m x

def GoMap.erase {κ α : Type} [DecidableEq κ] (m : GoMap κ α) (k : κ) : GoMap κ α :=
  fun x => if x = k then none else m x

/-- Go `map[int64]struct\x7b\x7d`, i.e. a set of ids. -/
abbrev GoSet : Type := Int → Bool

def GoSet.empty : GoSet := fun _ => false

def GoSet.insert (s : GoSet) (k : Int) : GoSet := fun x => if x = k then true else s x

def GoSet.erase (s : GoSet) (k : Int) : GoSet := fun x => if x = k then false else s x

/-- model.TableName: the (schema, table) name pair used as a map key. -/
structure TableName where
  schema : String
  table : String
deriving DecidableEq

/-- One entry of timodel.PartitionInfo.Definitions; only the id matters here. -/
structure PartitionDef where
  id : Int
deriving DecidableEq

/-- timodel.PartitionInfo: the ordered list of partition definitions. -/
structure PartitionInfo where
  definitions : List PartitionDef
deriving DecidableEq

/-- model.TableInfo (cdc/model, outside src): the wrapped table record.
`name` is `Name.O`; `tableName` and `version` are filled by `WrapTableInfo`.
The column and index structure is opaque to the core apart from the
eligibility predicate, so it is summarized by `isSequence` and
`hasRowIdentity`. -/
structure TableInfo where
  id : Int
  schemaID : Int
  name : String
  tableName : TableName
  version : Nat
  partition : Option PartitionInfo
  isSequence : Bool
  hasRowIdentity : Bool
deriving DecidableEq

/-- timodel.DBInfo.  `name` is `Name.O`, `nameL` is `Name.L` (lower-cased).
`DBInfo.Copy` copies the record, which is the identity under value
semantics. -/
structure DBInfo where
  id : Int
  name : String
  nameL : String
deriving DecidableEq

/-- GetPartitionInfo returns the partition info of the table, if any. -/
def TableInfo.GetPartitionInfo (t : TableInfo) : Option PartitionInfo := t.partition

/-- IsSequence of model.TableInfo. -/
def TableInfo.IsSequence (t : TableInfo) : Bool := t.isSequence

/-- Modelled from the spec: `model.TableInfo.IsEligible` lives in cdc/model
which is not under src.  Glossary: "sequences and pk-less no-unique-index
tables are ineligible unless force_replicate overrides"; the flag
"treat ineligible tables as eligible" when set. -/
def TableInfo.IsEligible (t : TableInfo) (forceReplicate : Bool) : Bool :=
  forceReplicate || (!t.isSequence && t.hasRowIdentity)

/-- Modelled from the spec: `model.WrapTableInfo` (cdc/model, outside src)
denormalizes the owning schema id and name into the table record and stamps
the version with the DDL's finished ts.  The inner structure (partitions,
eligibility inputs, `Name.O`) is carried verbatim. -/
def WrapTableInfo (schemaID : Int) (schemaName : String) (ts : Nat) (t : TableInfo) : TableInfo :=
  { t with
    schemaID := schemaID
    tableName := { schema := schemaName, table := t.name }
    version := ts }

/-- The error taxonomy surfaced by the storage (pkg/errors codes). -/
inductive SErr where
  | schemaNotFound (id : Int)
  | schemaExists
  | tableNotFound (id : Int)
  | tableExists
  | invalidDDLJob
  | storageGCed
  | storageUnresolved
  | snapshotNotFound
deriving DecidableEq

/-- schemaSnapshot: the full schema image at one timestamp. -/
structure schemaSnapshot where
  tableNameToID : GoMap TableName Int
  schemaNameToID : GoMap String Int
  schemas : GoMap Int DBInfo
  tables : GoMap Int TableInfo
  partitionTable : GoMap Int TableInfo
  tableInSchema : GoMap Int (List Int)
  truncateTableID : GoSet
  ineligibleTableID : GoSet
  currentTs : Nat
  forceReplicate : Bool

/-- newEmptySchemaSnapshot: every index empty, zero-valued ts. -/
def newEmptySchemaSnapshot (forceReplicate : Bool) : schemaSnapshot :=
  { tableNameToID := GoMap.empty
    schemaNameToID := GoMap.empty
    schemas := GoMap.empty
    tables := GoMap.empty
    partitionTable := GoMap.empty
    tableInSchema := GoMap.empty
    truncateTableID := GoSet.empty
    ineligibleTableID := GoSet.empty
    currentTs := 0
    forceReplicate := forceReplicate }

instance : Inhabited schemaSnapshot := ⟨newEmptySchemaSnapshot false⟩

/-- Clone produces a deep copy of every index; under value semantics this is
the identity.  (The Go code copies each map so that mutating the clone never
touches the original; the pure embedding gives that for free.) -/
def schemaSnapshot.Clone (s : schemaSnapshot) : schemaSnapshot := s

/-- IsTruncateTableID. -/
def schemaSnapshot.IsTruncateTableID (s : schemaSnapshot) (id : Int) : Bool :=
  s.truncateTableID id

/-- IsIneligibleTableID. -/
def schemaSnapshot.IsIneligibleTableID (s : schemaSnapshot) (id : Int) : Bool :=
  s.ineligibleTableID id

/-- The loop body of `dropSchema` over the schema's table-id list: delete each
table's partitions from `partitionTable`, then the table itself and its name
index entry.  Note: unlike `dropTable`, nothing is removed from
`ineligibleTableID`.  (A table id absent from `tables` would be a nil
dereference in Go; the model skips it, and no claim exercises that state.) -/
def dropSchemaTables (s : schemaSnapshot) : List Int → schemaSnapshot
  | [] => s
  | tid :: rest =>
    match s.tables tid with
    | none => dropSchemaTables s rest
    | some t =>
      let s1 := match t.GetPartitionInfo with
        | some pi => { s with partitionTable :=
            pi.definitions.foldl (fun acc (p : PartitionDef) => GoMap.erase acc p.id) s.partitionTable }
        | none => s
      dropSchemaTables
        { s1 with
          tables := GoMap.erase s1.tables tid
          tableNameToID := GoMap.erase s1.tableNameToID t.tableName } rest

/-- schemaSnapshot.dropSchema (schema_storage.go:371). -/
def schemaSnapshot.dropSchema (s : schemaSnapshot) (id : Int) : Except SErr schemaSnapshot :=
  match s.schemas id with
  | none => .error (.schemaNotFound id)
  | some schema =>
    let s1 := dropSchemaTables s ((s.tableInSchema id).getD [])
    .ok { s1 with
          schemas := GoMap.erase s1.schemas id
          tableInSchema := GoMap.erase s1.tableInSchema id
          schemaNameToID := GoMap.erase s1.schemaNameToID schema.name }

/-- schemaSnapshot.createSchema (schema_storage.go:395). -/
def schemaSnapshot.createSchema (s : schemaSnapshot) (db : DBInfo) : Except SErr schemaSnapshot :=
  match s.schemas db.id with
  | some _ => .error .schemaExists
  | none =>
    .ok { s with
          schemas := GoMap.insert s.schemas db.id db
          schemaNameToID := GoMap.insert s.schemaNameToID db.name db.id
          tableInSchema := GoMap.insert s.tableInSchema db.id [] }

/-- schemaSnapshot.replaceSchema (schema_storage.go:408). -/
def schemaSnapshot.replaceSchema (s : schemaSnapshot) (db : DBInfo) : Except SErr schemaSnapshot :=
  match s.schemas db.id with
  | none => .error (.schemaNotFound db.id)
  | some _ =>
    .ok { s with
          schemas := GoMap.insert s.schemas db.id db
          schemaNameToID := GoMap.insert s.schemaNameToID db.name db.id }

/-- The in-place removal of the first occurrence of `id` from the
tableInSchema slice (copy + shift + truncate); absent id leaves the slice
unchanged. -/
def removeFirst (l : List Int) (id : Int) : List Int :=
  match l with
  | [] => []
  | x :: xs => if x = id then xs else x :: removeFirst xs id

/-- schemaSnapshot.dropTable (schema_storage.go:418). -/
def schemaSnapshot.dropTable (s : schemaSnapshot) (id : Int) : Except SErr schemaSnapshot :=
  match s.tables id with
  | none => .error (.tableNotFound id)
  | some table =>
    match s.tableInSchema table.schemaID with
    | none => .error (.schemaNotFound table.schemaID)
    | some tis =>
      let s1 := { s with tableInSchema := GoMap.insert s.tableInSchema table.schemaID (removeFirst tis id) }
      let tableName := table.tableName
      let s2 := { s1 with tables := GoMap.erase s1.tables id }
      let s3 := match table.GetPartitionInfo with
        | some pi =>
          pi.definitions.foldl
            (fun (acc : schemaSnapshot) (p : PartitionDef) =>
              { acc with
                partitionTable := GoMap.erase acc.partitionTable p.id
                ineligibleTableID := GoSet.erase acc.ineligibleTableID p.id }) s2
        | none => s2
      .ok { s3 with
            tableNameToID := GoMap.erase s3.tableNameToID tableName
            ineligibleTableID := GoSet.erase s3.ineligibleTableID id }

/-- The shared partition loop of createTable / replaceTable / updatePartition:
for each partition definition, point `partitionTable` at the table and, when
the table is ineligible, insert the partition id into `ineligibleTableID`. -/
def addPartDefs (tbl : TableInfo) (s : schemaSnapshot) : List PartitionDef → schemaSnapshot
  | [] => s
  | p :: rest =>
    let s1 := { s with partitionTable := GoMap.insert s.partitionTable p.id tbl }
    let s2 := if tbl.IsEligible s1.forceReplicate then s1
              else { s1 with ineligibleTableID := GoSet.insert s1.ineligibleTableID p.id }
    addPartDefs tbl s2 rest

/-- The "drop old partition" loop of updatePartition: each id left over from
the old partition set is marked truncated and removed from `partitionTable`
and `ineligibleTableID`. -/
def dropOldParts (s : schemaSnapshot) : List Int → schemaSnapshot
  | [] => s
  | pid :: rest =>
    dropOldParts
      { s with
        truncateTableID := GoSet.insert s.truncateTableID pid
        partitionTable := GoMap.erase s.partitionTable pid
        ineligibleTableID := GoSet.erase s.ineligibleTableID pid } rest

/-- schemaSnapshot.updatePartition (schema_storage.go:451).  Go collects the
old partition ids in a set and deletes the incoming ids from it while
traversing the new definitions; the leftover set equals the filtered list
below up to duplicates and iteration order, neither of which changes the
resulting maps pointwise (the loop body touches only the key it visits, and
is idempotent per key). -/
def schemaSnapshot.updatePartition (s : schemaSnapshot) (tbl : TableInfo) : Except SErr schemaSnapshot :=
  match s.tables tbl.id with
  | none => .error (.tableNotFound tbl.id)
  | some table =>
    match table.GetPartitionInfo with
    | none => .error (.tableNotFound tbl.id)
    | some oldPi =>
      match tbl.GetPartitionInfo with
      | none => .error (.tableNotFound tbl.id)
      | some newPi =>
        let s1 := { s with tables := GoMap.insert s.tables tbl.id tbl }
        let s2 := addPartDefs tbl s1 newPi.definitions
        let remaining := (oldPi.definitions.map PartitionDef.id).filter
          (fun pid => !(decide (pid ∈ newPi.definitions.map PartitionDef.id)))
        .ok (dropOldParts s2 remaining)

/-- schemaSnapshot.createTable (schema_storage.go:498). -/
def schemaSnapshot.createTable (s : schemaSnapshot) (table : TableInfo) : Except SErr schemaSnapshot :=
  match s.schemas table.schemaID with
  | none => .error (.schemaNotFound table.schemaID)
  | some _ =>
    match s.tableInSchema table.schemaID with
    | none => .error (.schemaNotFound table.schemaID)
    | some tis =>
      match s.tables table.id with
      | some _ => .error .tableExists
      | none =>
        let s1 := { s with tableInSchema := GoMap.insert s.tableInSchema table.schemaID (tis ++ [table.id]) }
        let s2 := { s1 with tables := GoMap.insert s1.tables table.id table }
        let s3 := if table.IsEligible s2.forceReplicate then s2
                  else { s2 with ineligibleTableID := GoSet.insert s2.ineligibleTableID table.id }
        let s4 := match table.GetPartitionInfo with
          | some pi => addPartDefs table s3 pi.definitions
          | none => s3
        .ok { s4 with tableNameToID := GoMap.insert s4.tableNameToID table.tableName table.id }

/-- schemaSnapshot.replaceTable (schema_storage.go:540).  Inserts into
`ineligibleTableID` when the new table info is ineligible, but never removes
an existing entry. -/
def schemaSnapshot.replaceTable (s : schemaSnapshot) (table : TableInfo) : Except SErr schemaSnapshot :=
  match s.tables table.id with
  | none => .error (.tableNotFound table.id)
  | some _ =>
    let s1 := { s with tables := GoMap.insert s.tables table.id table }
    let s2 := if table.IsEligible s1.forceReplicate then s1
              else { s1 with ineligibleTableID := GoSet.insert s1.ineligibleTableID table.id }
    let s3 := match table.GetPartitionInfo with
      | some pi => addPartDefs table s2 pi.definitions
      | none => s2
    .ok s3

/-- The DDL job kinds dispatched by handleDDL; `other` stands for the default
branch (column changes, index changes, ...). -/
inductive JobType where
  | createSchema
  | modifySchemaCharsetAndCollate
  | dropSchema
  | renameTable
  | renameTables
  | createTable
  | createView
  | recoverTable
  | dropTable
  | dropView
  | truncateTable
  | truncateTablePartition
  | addTablePartition
  | dropTablePartition
  | other
deriving DecidableEq

/-- Job state; `cancelled` stands for every state that is neither Done nor
Synced. -/
inductive JobState where
  | done
  | synced
  | cancelled
deriving DecidableEq

/-- timodel.Job.BinlogInfo.  A nil BinlogInfo pointer in Go is folded into
`tableInfo`/`dbInfo` being `none`: both lead to the same log-and-skip branch
of handleDDL, and the dereferencing paths that Go would crash on are not
exercised by any claim. -/
structure BinlogInfo where
  finishedTS : Nat
  dbInfo : Option DBInfo
  tableInfo : Option TableInfo
  multipleTableInfos : List TableInfo

/-- timodel.Job.  The RenameTables raw args are carried already decoded
(`job.DecodeArgs` cannot fail in the model). -/
structure Job where
  id : Int
  type : JobType
  schemaID : Int
  schemaName : String
  tableID : Int
  binlogInfo : BinlogInfo
  oldSchemaIDs : List Int
  newSchemaIDs : List Int
  newTableNames : List String
  oldTableIDs : List Int
  oldSchemaNames : List String
  state : JobState

def Job.IsSynced (j : Job) : Bool :=
  match j.state with
  | .synced => true
  | _ => false

def Job.IsDone (j : Job) : Bool :=
  match j.state with
  | .done => true
  | _ => false

/-- Placeholder for a Go nil `*DBInfo`; dereferencing it would panic in Go and
no claim reaches those paths. -/
def defaultDBInfo : DBInfo := { id := 0, name := "", nameL := "" }

/-- Placeholder for a Go nil `*TableInfo`. -/
def defaultTableInfo : TableInfo :=
  { id := 0, schemaID := 0, name := "", tableName := { schema := "", table := "" },
    version := 0, partition := none, isSequence := false, hasRowIdentity := false }

/-- schemaSnapshot.FillSchemaName (schema_storage.go:353): mutates the job to
carry its schema name; modelled as returning the updated job. -/
def schemaSnapshot.FillSchemaName (s : schemaSnapshot) (job : Job) : Except SErr Job :=
  if job.type = .renameTables then .ok job
  else if job.type = .createSchema ∨ job.type = .dropSchema then
    .ok { job with schemaName := (job.binlogInfo.dbInfo.getD defaultDBInfo).name }
  else
    match s.schemas job.schemaID with
    | none => .error (.schemaNotFound job.schemaID)
    | some dbInfo => .ok { job with schemaName := dbInfo.name }

/-- getWrapTableInfo closure inside handleDDL. -/
def getWrapTableInfo (job : Job) : TableInfo :=
  WrapTableInfo job.schemaID job.schemaName job.binlogInfo.finishedTS
    (job.binlogInfo.tableInfo.getD defaultTableInfo)

/-- The drop loop of renameTables over oldTableIDs, first error wins. -/
def dropTablesList (s : schemaSnapshot) : List Int → Except SErr schemaSnapshot
  | [] => .ok s
  | tid :: rest =>
    match s.dropTable tid with
    | .error e => .error e
    | .ok s1 => dropTablesList s1 rest

/-- The create loop of renameTables: Go indexes `newSchemaIDs[i]` while
ranging over MultipleTableInfos; the model consumes both lists in lockstep
(an out-of-range index would panic in Go; the model returns InvalidDDLJob,
a path no claim exercises).  Each new table is wrapped under the new schema's
lower-cased name (`Name.L`), exactly as the source does. -/
def createRenamedTables (ts : Nat) : schemaSnapshot → List Int → List TableInfo → Except SErr schemaSnapshot
  | s, _, [] => .ok s
  | _, [], _ :: _ => .error .invalidDDLJob
  | s, sid :: sidRest, info :: rest =>
    match s.schemas sid with
    | none => .error (.schemaNotFound sid)
    | some newSchema =>
      match s.createTable (WrapTableInfo sid newSchema.nameL ts info) with
      | .error e => .error e
      | .ok s1 => createRenamedTables ts s1 sidRest rest

/-- schemaSnapshot.renameTables (schema_storage.go:659): validate the parallel
arrays, drop every old table id in input order, then create the new tables. -/
def schemaSnapshot.renameTables (s : schemaSnapshot) (job : Job) : Except SErr schemaSnapshot :=
  if job.binlogInfo.multipleTableInfos.length < job.newTableNames.length then
    .error .invalidDDLJob
  else
    match dropTablesList s job.oldTableIDs with
    | .error e => .error e
    | .ok s1 => createRenamedTables job.binlogInfo.finishedTS s1 job.newSchemaIDs job.binlogInfo.multipleTableInfos

/-- schemaSnapshot.handleDDL (schema_storage.go:568).  The malformed `other`
job (no TableInfo) is logged and skipped, returning before `currentTs` is
updated; every other successful branch stamps `currentTs` with the job's
finished ts. -/
def schemaSnapshot.handleDDL (s : schemaSnapshot) (job0 : Job) : Except SErr schemaSnapshot :=
  match s.FillSchemaName job0 with
  | .error e => .error e
  | .ok job =>
    if job.type = .other ∧ job.binlogInfo.tableInfo = none then .ok s
    else
      let result : Except SErr schemaSnapshot :=
        match job.type with
        | .createSchema => s.createSchema (job.binlogInfo.dbInfo.getD defaultDBInfo)
        | .modifySchemaCharsetAndCollate => s.replaceSchema (job.binlogInfo.dbInfo.getD defaultDBInfo)
        | .dropSchema => s.dropSchema job.schemaID
        | .renameTable =>
          match s.dropTable job.tableID with
          | .error e => .error e
          | .ok s1 => s1.createTable (getWrapTableInfo job)
        | .renameTables => s.renameTables job
        | .createTable => s.createTable (getWrapTableInfo job)
        | .createView => s.createTable (getWrapTableInfo job)
        | .recoverTable => s.createTable (getWrapTableInfo job)
        | .dropTable => s.dropTable job.tableID
        | .dropView => s.dropTable job.tableID
        | .truncateTable =>
          match s.dropTable job.tableID with
          | .error e => .error e
          | .ok s1 =>
            match s1.createTable (getWrapTableInfo job) with
            | .error e => .error e
            | .ok s2 => .ok { s2 with truncateTableID := GoSet.insert s2.truncateTableID job.tableID }
        | .truncateTablePartition => s.updatePartition (getWrapTableInfo job)
        | .addTablePartition => s.updatePartition (getWrapTableInfo job)
        | .dropTablePartition => s.updatePartition (getWrapTableInfo job)
        | .other => s.replaceTable (getWrapTableInfo job)
      result.map (fun s' => { s' with currentTs := job.binlogInfo.finishedTS })

/-- schemaStorageImpl: snapshot history plus the two atomic watermarks.  The
external filter is an opaque predicate (`none` models a nil filter). -/
structure Storage where
  snaps : List schemaSnapshot
  gcTs : Nat
  resolvedTs : Nat
  ddlFilter : Option (JobType → Bool)
  forceReplicate : Bool

/-- NewSchemaStorage (schema_storage.go:738): the bootstrap snapshot (built
either empty or from the external meta loader) becomes the single element of
the history; `gcTs` starts at its zero value. -/
def NewSchemaStorage (snap : schemaSnapshot) (startTs : Nat)
    (ddlFilter : Option (JobType → Bool)) (forceReplicate : Bool) : Storage :=
  { snaps := [snap]
    gcTs := 0
    resolvedTs := startTs
    ddlFilter := ddlFilter
    forceReplicate := forceReplicate }

/-- AdvanceResolvedTs (schema_storage.go:859): compare-and-swap loop, never
moves backwards; single-threaded semantics collapse to one comparison. -/
def Storage.AdvanceResolvedTs (st : Storage) (ts : Nat) : Storage :=
  if ts < st.resolvedTs then st else { st with resolvedTs := ts }

/-- skipJob (schema_storage.go:912): discard filtered kinds and jobs whose
state is neither Synced nor Done. -/
def Storage.skipJob (st : Storage) (job : Job) : Bool :=
  (match st.ddlFilter with
   | some f => f job.type
   | none => false) || (!job.IsSynced && !job.IsDone)

/-- Go's sort.Search loop body, made structural with explicit fuel; each
iteration halves `j - i`, so fuel `n ≥ j - i` reproduces the loop exactly. -/
def sortSearchGo (f : Nat → Bool) : Nat → Nat → Nat → Nat
  | 0, i, _ => i
  | fuel + 1, i, j =>
    if i < j then
      if f ((i + j) / 2) then sortSearchGo f fuel i ((i + j) / 2)
      else sortSearchGo f fuel ((i + j) / 2 + 1) j
    else i

/-- sort.Search(n, f): smallest index in [0, n] at which `f` flips to true,
assuming `f` monotone (which the caller guarantees via sortedness). -/
def sortSearch (n : Nat) (f : Nat → Bool) : Nat := sortSearchGo f n 0 n

/-- schemaStorageImpl.getSnapshot (schema_storage.go:762): the one-shot
lookup.  `default` stands for Go's out-of-range access, which the checks
make unreachable. -/
def Storage.getSnapshot (st : Storage) (ts : Nat) : Except SErr schemaSnapshot :=
  if ts < st.gcTs then .error .storageGCed
  else if ts > st.resolvedTs then .error .storageUnresolved
  else if sortSearch st.snaps.length (fun k => decide ((st.snaps.getD k default).currentTs > ts)) = 0 then
    .error .snapshotNotFound
  else
    .ok (st.snaps.getD
      (sortSearch st.snaps.length (fun k => decide ((st.snaps.getD k default).currentTs > ts)) - 1)
      default)

/-- isRetryable (schema_storage.go:811): `IsRetryableError(err) &&
ErrSchemaStorageUnresolved.Equal(err)`.  The error registry (outside src)
marks SchemaStorageUnresolved retryable, so the conjunction holds exactly for
that error. -/
def isRetryableErr : SErr → Bool
  | .storageUnresolved => true
  | _ => false

/-- GetLastSnapshot (schema_storage.go:816) indexes `snaps[len-1]`; the model
returns `none` where Go would panic on an empty history. -/
def Storage.GetLastSnapshot (st : Storage) : Option schemaSnapshot := st.snaps.getLast?

/-- HandleDDLJob (schema_storage.go:823).  Mutation of the receiver becomes
explicit state passing: the second component is the storage after the call,
the first the returned error.  On a failed apply the clone is discarded and
the original state returned unchanged, exactly as the deep-copying Go code
behaves. -/
def Storage.HandleDDLJob (st : Storage) (job : Job) : Option SErr × Storage :=
  if st.skipJob job then (none, st.AdvanceResolvedTs job.binlogInfo.finishedTS)
  else
    match st.snaps.getLast? with
    | some lastSnap =>
      if job.binlogInfo.finishedTS ≤ lastSnap.currentTs then (none, st)
      else
        match lastSnap.Clone.handleDDL job with
        | .error e => (some e, st)
        | .ok snap =>
          (none, ({ st with snaps := st.snaps ++ [snap] }).AdvanceResolvedTs job.binlogInfo.finishedTS)
    | none =>
      match (newEmptySchemaSnapshot st.forceReplicate).handleDDL job with
      | .error e => (some e, st)
      | .ok snap =>
        (none, ({ st with snaps := st.snaps ++ [snap] }).AdvanceResolvedTs job.binlogInfo.finishedTS)

/-- The startIdx loop of DoGC: the index of the last snapshot whose
currentTs is at or below `ts`, scanning from the front and stopping at the
first snapshot above `ts`; 0 if the scan stops immediately. -/
def gcStartIdx (ts : Nat) : Nat → Nat → List schemaSnapshot → Nat
  | _, acc, [] => acc
  | i, acc, s :: rest => if ts < s.currentTs then acc else gcStartIdx ts (i + 1) i rest

/-- The length of the leading run of snapshots with currentTs ≤ ts; used to
characterize `gcStartIdx`. -/
def countLeadingLE (ts : Nat) : List schemaSnapshot → Nat
  | [] => 0
  | s :: rest => if s.currentTs ≤ ts then countLeadingLE ts rest + 1 else 0

/-- DoGC (schema_storage.go:876).  Returns the retained oldest currentTs and
the storage after the call.  Note the early return when startIdx = 0: the
history and `gcTs` are left untouched. -/
def Storage.DoGC (st : Storage) (ts : Nat) : Nat × Storage :=
  if gcStartIdx ts 0 0 st.snaps = 0 then ((st.snaps.headD default).currentTs, st)
  else
    (((st.snaps.drop (gcStartIdx ts 0 0 st.snaps)).headD default).currentTs,
     { st with
       snaps := st.snaps.drop (gcStartIdx ts 0 0 st.snaps)
       gcTs := ((st.snaps.drop (gcStartIdx ts 0 0 st.snaps)).headD default).currentTs })

/-- Invariant 7 of the spec, as the code maintains it: history strictly
ordered by currentTs. -/
def sortedByTs : List schemaSnapshot → Bool
  | [] => true
  | [_] => true
  | a :: b :: rest => decide (a.currentTs < b.currentTs) && sortedByTs (b :: rest)

/-- States reachable from construction by HandleDDLJob and DoGC calls. -/
inductive Reachable : Storage → Prop
  | init (snap : schemaSnapshot) (startTs : Nat) (f : Option (JobType → Bool)) (fr : Bool) :
      Reachable (NewSchemaStorage snap startTs f fr)
  | ddl (st : Storage) (job : Job) : Reachable st → Reachable (st.HandleDDLJob job).2
  | gc (st : Storage) (ts : Nat) : Reachable st → Reachable (st.DoGC ts).2

/-! ## Concrete fixtures used by the counterexamples and witnesses -/

/-- A bare snapshot at the given ts (only the history ordering matters). -/
def snapTs (n : Nat) : schemaSnapshot :=
  { newEmptySchemaSnapshot false with currentTs := n }

/-- A storage over bare snapshots at the given timestamps. -/
def storageOf (tss : List Nat) (gcTs resolvedTs : Nat) : Storage :=
  { snaps := tss.map snapTs
    gcTs := gcTs
    resolvedTs := resolvedTs
    ddlFilter := none
    forceReplicate := false }

/-- Schema db1 (id 1), all-lowercase name so `Name.O = Name.L`. -/
def db1 : DBInfo := { id := 1, name := "db1", nameL := "db1" }

/-- An ineligible, unpartitioned table id 100 named db1.t. -/
def c2table : TableInfo :=
  { id := 100, schemaID := 1, name := "t", tableName := { schema := "db1", table := "t" },
    version := 1, partition := none, isSequence := false, hasRowIdentity := false }

/-- Snapshot holding schema db1 with the single ineligible table 100. -/
def c2snap : schemaSnapshot :=
  { tableNameToID := GoMap.insert GoMap.empty { schema := "db1", table := "t" } 100
    schemaNameToID := GoMap.insert GoMap.empty ("db1") 1
    schemas := GoMap.insert GoMap.empty 1 db1
    tables := GoMap.insert GoMap.empty 100 c2table
    partitionTable := GoMap.empty
    tableInSchema := GoMap.insert GoMap.empty 1 [100]
    truncateTableID := GoSet.empty
    ineligibleTableID := GoSet.insert GoSet.empty 100
    currentTs := 1
    forceReplicate := false }

/-- A job template: fields are overridden per fixture. -/
def baseJob : Job :=
  { id := 0, type := JobType.other, schemaID := 0, schemaName := "", tableID := 0,
    binlogInfo := { finishedTS := 0, dbInfo := none, tableInfo := none, multipleTableInfos := [] },
    oldSchemaIDs := [], newSchemaIDs := [], newTableNames := [], oldTableIDs := [],
    oldSchemaNames := [], state := JobState.done }

/-- DropSchema(db1) at ts 5. -/
def c2job : Job :=
  { baseJob with
    type := JobType.dropSchema
    schemaID := 1
    binlogInfo := { finishedTS := 5, dbInfo := some db1, tableInfo := none, multipleTableInfos := [] } }

/-- Storage with a single snapshot at ts 5 and untouched gcTs 0 (C3). -/
def c3st : Storage := storageOf [5] 0 5

/-- Storage with snapshots at ts 1, 5, 7, 9 (spec scenario 6). -/
def c3st4 : Storage := storageOf [1, 5, 7, 9] 0 9

/-- Storage for the C1 witness: snapshots at ts 1 and 5, resolved up to 9. -/
def c1st : Storage := storageOf [1, 5] 0 9

/-- Storage for the C4 witness: gc watermark 2, snapshots at 3 and 5. -/
def c4st : Storage := storageOf [3, 5] 2 9

/-- A non-skipped DropTable job for a table that does not exist (C5). -/
def c5job : Job :=
  { baseJob with
    type := JobType.dropTable
    schemaID := 1
    tableID := 42
    binlogInfo := { finishedTS := 10, dbInfo := none, tableInfo := none, multipleTableInfos := [] } }

/-- Storage whose only snapshot is c2snap at ts 1 (C5 witness). -/
def c5st : Storage :=
  { snaps := [c2snap], gcTs := 0, resolvedTs := 1, ddlFilter := none, forceReplicate := false }

/-- A duplicate job: finishedTS 1 equals the latest snapshot's ts (C8). -/
def c8job : Job :=
  { baseJob with
    type := JobType.dropTable
    schemaID := 1
    tableID := 100
    binlogInfo := { finishedTS := 1, dbInfo := none, tableInfo := none, multipleTableInfos := [] } }

/-- Eligible table id 100 named a (C6 swap). -/
def c6ta : TableInfo :=
  { id := 100, schemaID := 1, name := "a", tableName := { schema := "db1", table := "a" },
    version := 1, partition := none, isSequence := false, hasRowIdentity := true }

/-- Eligible table id 200 named b (C6 swap). -/
def c6tb : TableInfo :=
  { id := 200, schemaID := 1, name := "b", tableName := { schema := "db1", table := "b" },
    version := 1, partition := none, isSequence := false, hasRowIdentity := true }

/-- Incoming info for table 100, now named b. -/
def c6info100b : TableInfo := { c6ta with name := "b" }

/-- Incoming info for table 200, now named a. -/
def c6info200a : TableInfo := { c6tb with name := "a" }

/-- Snapshot holding db1.a (id 100) and db1.b (id 200). -/
def c6snap : schemaSnapshot :=
  { tableNameToID := GoMap.insert
      (GoMap.insert GoMap.empty { schema := "db1", table := "a" } 100)
      { schema := "db1", table := "b" } 200
    schemaNameToID := GoMap.insert GoMap.empty ("db1") 1
    schemas := GoMap.insert GoMap.empty 1 db1
    tables := GoMap.insert (GoMap.insert GoMap.empty 100 c6ta) 200 c6tb
    partitionTable := GoMap.empty
    tableInSchema := GoMap.insert GoMap.empty 1 [100, 200]
    truncateTableID := GoSet.empty
    ineligibleTableID := GoSet.empty
    currentTs := 1
    forceReplicate := false }

/-- RenameTables swap job at ts 11 (spec scenario 4). -/
def c6job : Job :=
  { baseJob with
    type := JobType.renameTables
    binlogInfo := { finishedTS := 11, dbInfo := none, tableInfo := none,
                    multipleTableInfos := [c6info100b, c6info200a] }
    newSchemaIDs := [1, 1]
    newTableNames := ["b", "a"]
    oldTableIDs := [100, 200] }

/-- A RenameTables job whose parallel arrays fail the length validation. -/
def c6badJob : Job :=
  { baseJob with
    type := JobType.renameTables
    newTableNames := ["x"] }

/-- The existing, ineligible partitioned table id 100 with partition 10 (C7). -/
def c7told : TableInfo :=
  { id := 100, schemaID := 1, name := "p", tableName := { schema := "db1", table := "p" },
    version := 1, partition := some { definitions := [{ id := 10 }] },
    isSequence := false, hasRowIdentity := false }

/-- The incoming, eligible table info with the same partition 10 (C7). -/
def c7tnew : TableInfo := { c7told with hasRowIdentity := true, version := 9 }

/-- Snapshot holding the ineligible partitioned table 100 with partition 10. -/
def c7snap : schemaSnapshot :=
  { tableNameToID := GoMap.insert GoMap.empty { schema := "db1", table := "p" } 100
    schemaNameToID := GoMap.insert GoMap.empty ("db1") 1
    schemas := GoMap.insert GoMap.empty 1 db1
    tables := GoMap.insert GoMap.empty 100 c7told
    partitionTable := GoMap.insert GoMap.empty 10 c7told
    tableInSchema := GoMap.insert GoMap.empty 1 [100]
    truncateTableID := GoSet.empty
    ineligibleTableID := GoSet.insert (GoSet.insert GoSet.empty 100) 10
    currentTs := 1
    forceReplicate := false }

/-- The partitioned table of the spec partition-drop scenario: partitions
10, 20, 30 (C7 witness). -/
def c7big : TableInfo :=
  { c7told with partition := some { definitions := [{ id := 10 }, { id := 20 }, { id := 30 }] } }

/-- The incoming info that drops partition 30, keeping 10 and 20. -/
def c7bigNew : TableInfo :=
  { c7told with partition := some { definitions := [{ id := 10 }, { id := 20 }] }, version := 9 }

/-- Snapshot holding c7big with partitions 10, 20, 30. -/
def c7bigSnap : schemaSnapshot :=
  { c7snap with
    tables := GoMap.insert GoMap.empty 100 c7big
    partitionTable := GoMap.insert (GoMap.insert (GoMap.insert GoMap.empty 10 c7big) 20 c7big) 30 c7big
    ineligibleTableID := GoSet.empty }

/-- Snapshot for C9: table 5 present and recorded ineligible. -/
def c9tblOld : TableInfo :=
  { id := 5, schemaID := 1, name := "u", tableName := { schema := "db1", table := "u" },
    version := 1, partition := none, isSequence := false, hasRowIdentity := false }

/-- Replacement info for table 5 that is now eligible (C9). -/
def c9tblNew : TableInfo := { c9tblOld with hasRowIdentity := true, version := 3 }

/-- Snapshot holding the ineligible table 5 (C9 witness). -/
def c9snap : schemaSnapshot :=
  { tableNameToID := GoMap.insert GoMap.empty { schema := "db1", table := "u" } 5
    schemaNameToID := GoMap.insert GoMap.empty ("db1") 1
    schemas := GoMap.insert GoMap.empty 1 db1
    tables := GoMap.insert GoMap.empty 5 c9tblOld
    partitionTable := GoMap.empty
    tableInSchema := GoMap.insert GoMap.empty 1 [5]
    truncateTableID := GoSet.empty
    ineligibleTableID := GoSet.insert GoSet.empty 5
    currentTs := 1
    forceReplicate := false }

/-- The snapshot produced by replacing table 5 with its eligible info. -/
def c9res : schemaSnapshot :=
  ((c9snap.replaceTable c9tblNew).toOption).getD default

/-! ## Helper lemmas -/

lemma getD_mem_of_lt {α : Type} (d : α) (l : List α) : ∀ n, n < l.length → l.getD n d ∈ l := by
  induction l with
  | nil => intro n h; simp at h
  | cons x xs ih =>
    intro n h
    cases n with
    | zero => rw [List.getD_cons_zero]; exact List.mem_cons_self x xs
    | succ n =>
      rw [List.getD_cons_succ]
      exact List.mem_cons_of_mem x (ih n (by simpa using h))

lemma mem_exists_getD {α : Type} (d : α) (l : List α) (x : α) (h : x ∈ l) :
    ∃ j, j < l.length ∧ l.getD j d = x := by
  induction l with
  | nil => cases h
  | cons a as ih =>
    cases h with
    | head => exact ⟨0, by simp, by rw [List.getD_cons_zero]⟩
    | tail _ h =>
      obtain ⟨j, hj, hx⟩ := ih h
      exact ⟨j + 1, by simpa using hj, by rw [List.getD_cons_succ]; exact hx⟩

lemma sortedByTs_tail (a : schemaSnapshot) (l : List schemaSnapshot)
    (h : sortedByTs (a :: l) = true) : sortedByTs l = true := by
  cases l with
  | nil => rfl
  | cons b rest =>
    simp only [sortedByTs, Bool.and_eq_true, decide_eq_true_eq] at h
    exact h.2

lemma sortedByTs_head_lt (a : schemaSnapshot) (l : List schemaSnapshot)
    (h : sortedByTs (a :: l) = true) : ∀ y ∈ l, a.currentTs < y.currentTs := by
  induction l generalizing a with
  | nil => intro y hy; cases hy
  | cons b rest ih =>
    intro y hy
    simp only [sortedByTs, Bool.and_eq_true, decide_eq_true_eq] at h
    cases hy with
    | head => exact h.1
    | tail _ hy =>
      exact Nat.lt_trans h.1 (ih b (by
        cases rest with
        | nil => rfl
        | cons c r => simp only [sortedByTs, Bool.and_eq_true, decide_eq_true_eq] at h ⊢; exact ⟨h.2.1, by simpa using h.2.2⟩) y hy)

lemma sortedByTs_getD_lt (l : List schemaSnapshot) (hs : sortedByTs l = true) :
    ∀ i j, i < j → j < l.length →
      (l.getD i default).currentTs < (l.getD j default).currentTs := by
  induction l with
  | nil => intro i j hij hj; simp at hj
  | cons a rest ih =>
    intro i j hij hj
    cases j with
    | zero => omega
    | succ j =>
      cases i with
      | zero =>
        rw [List.getD_cons_zero, List.getD_cons_succ]
        exact sortedByTs_head_lt a rest hs _ (getD_mem_of_lt default rest j (by simpa using hj))
      | succ i =>
        rw [List.getD_cons_succ, List.getD_cons_succ]
        exact ih (sortedByTs_tail a rest hs) i j (by omega) (by simpa using hj)

lemma sortSearchGo_spec (f : Nat → Bool) (n : Nat)
    (mono : ∀ a b, a ≤ b → b < n → f a = true → f b = true) :
    ∀ fuel i j, j - i ≤ fuel → i ≤ j → j ≤ n →
      i ≤ sortSearchGo f fuel i j ∧ sortSearchGo f fuel i j ≤ j ∧
      (∀ k, i ≤ k → k < sortSearchGo f fuel i j → f k = false) ∧
      (sortSearchGo f fuel i j < j → f (sortSearchGo f fuel i j) = true) := by
  intro fuel
  induction fuel with
  | zero =>
    intro i j hfuel hij hjn
    have hij' : i = j := by omega
    subst hij'
    simp only [sortSearchGo]
    exact ⟨le_refl i, le_refl i, fun k h1 h2 => by omega, fun h => by omega⟩
  | succ fuel ih =>
    intro i j hfuel hij hjn
    by_cases hlt : i < j
    · by_cases hf : f ((i + j) / 2) = true
      · have heq : sortSearchGo f (fuel + 1) i j = sortSearchGo f fuel i ((i + j) / 2) := by
          simp only [sortSearchGo, if_pos hlt, if_pos hf]
        rw [heq]
        have h := ih i ((i + j) / 2) (by omega) (by omega) (by omega)
        refine ⟨h.1, by omega, h.2.2.1, ?_⟩
        intro hr
        rcases Nat.lt_or_ge (sortSearchGo f fuel i ((i + j) / 2)) ((i + j) / 2) with hc | hc
        · exact h.2.2.2 hc
        · have : sortSearchGo f fuel i ((i + j) / 2) = (i + j) / 2 := by omega
          rw [this]; exact hf
      · have heq : sortSearchGo f (fuel + 1) i j = sortSearchGo f fuel ((i + j) / 2 + 1) j := by
          simp only [sortSearchGo, if_pos hlt, if_neg hf]
        rw [heq]
        have h := ih ((i + j) / 2 + 1) j (by omega) (by omega) hjn
        refine ⟨by omega, h.2.1, ?_, h.2.2.2⟩
        intro k hk1 hk2
        rcases Nat.lt_or_ge k ((i + j) / 2 + 1) with hkm | hkm
        · rcases Bool.eq_false_or_eq_true (f k) with hfk | hfk
          · exact absurd (mono k ((i + j) / 2) (by omega) (by omega) hfk)
              (by simpa using hf)
          · exact hfk
        · exact h.2.2.1 k hkm hk2
    · have hij' : i = j := by omega
      subst hij'
      have heq : sortSearchGo f (fuel + 1) i i = i := by
        simp only [sortSearchGo, if_neg hlt]
      rw [heq]
      exact ⟨le_refl i, le_refl i, fun k h1 h2 => by omega, fun h => by omega⟩

lemma sortSearch_spec (f : Nat → Bool) (n : Nat)
    (mono : ∀ a b, a ≤ b → b < n → f a = true → f b = true) :
    sortSearch n f ≤ n ∧
    (∀ k, k < sortSearch n f → f k = false) ∧
    (sortSearch n f < n → f (sortSearch n f) = true) := by
  have h := sortSearchGo_spec f n mono n 0 n (by omega) (by omega) (le_refl n)
  exact ⟨h.2.1, fun k hk => h.2.2.1 k (Nat.zero_le k) hk, h.2.2.2⟩

lemma searchPred_mono (st : Storage) (ts : Nat) (hs : sortedByTs st.snaps = true) :
    ∀ a b, a ≤ b → b < st.snaps.length →
      decide ((st.snaps.getD a default).currentTs > ts) = true →
      decide ((st.snaps.getD b default).currentTs > ts) = true := by
  intro a b hab hb ha
  simp only [decide_eq_true_eq] at ha ⊢
  rcases Nat.lt_or_ge a b with h | h
  · exact Nat.lt_trans ha (sortedByTs_getD_lt st.snaps hs a b h hb)
  · have : a = b := by omega
    subst this
    exact ha

/-! ## C1 -/

/-- C1: whenever the one-shot `getSnapshot(T)` on a storage with a
`currentTs`-sorted history returns a snapshot `s`, then `s` is in the
history, `s.currentTs ≤ T`, and no snapshot of the history has a currentTs
strictly between `s.currentTs` and `T` (inclusive of `T`). -/
theorem getSnapshot_returns_largest_le (st : Storage) (ts : Nat)
    (hs : sortedByTs st.snaps = true) (s : schemaSnapshot)
    (h : st.getSnapshot ts = .ok s) :
    s ∈ st.snaps ∧ s.currentTs ≤ ts ∧
    ∀ s' ∈ st.snaps, ¬ (s.currentTs < s'.currentTs ∧ s'.currentTs ≤ ts) := by
  unfold Storage.getSnapshot at h
  by_cases h1 : ts < st.gcTs
  · rw [if_pos h1] at h; cases h
  rw [if_neg h1] at h
  by_cases h2 : ts > st.resolvedTs
  · rw [if_pos h2] at h; cases h
  rw [if_neg h2] at h
  by_cases h3 : sortSearch st.snaps.length
      (fun k => decide ((st.snaps.getD k default).currentTs > ts)) = 0
  · rw [if_pos h3] at h; cases h
  rw [if_neg h3] at h
  have hsv : st.snaps.getD
      (sortSearch st.snaps.length (fun k => decide ((st.snaps.getD k default).currentTs > ts)) - 1)
      default = s := by
    injection h
  have spec := sortSearch_spec (fun k => decide ((st.snaps.getD k default).currentTs > ts))
      st.snaps.length (searchPred_mono st ts hs)
  generalize hidx : sortSearch st.snaps.length
      (fun k => decide ((st.snaps.getD k default).currentTs > ts)) = i at h3 hsv spec
  have hi1 : 1 ≤ i := by omega
  have hin : i ≤ st.snaps.length := spec.1
  have hi1n : i - 1 < st.snaps.length := by omega
  refine ⟨?_, ?_, ?_⟩
  · rw [← hsv]; exact getD_mem_of_lt default st.snaps (i - 1) hi1n
  · have hf : decide ((st.snaps.getD (i - 1) default).currentTs > ts) = false :=
      spec.2.1 (i - 1) (by omega)
    have hf' := of_decide_eq_false hf
    rw [← hsv]
    omega
  · intro s' hmem hcontra
    obtain ⟨j, hj, hgd⟩ := mem_exists_getD default st.snaps s' hmem
    rcases Nat.lt_or_ge j i with hji | hji
    · rcases Nat.lt_or_ge j (i - 1) with hji1 | hji1
      · have := sortedByTs_getD_lt st.snaps hs j (i - 1) hji1 hi1n
        rw [hgd, hsv] at this
        omega
      · have : j = i - 1 := by omega
        subst this
        rw [hgd] at hsv
        rw [hsv] at hcontra
        omega
    · have hilen : i < st.snaps.length := by omega
      have hfi := spec.2.2 hilen
      have hfj := searchPred_mono st ts hs i j hji hj hfi
      simp only [decide_eq_true_eq] at hfj
      rw [hgd] at hfj
      omega

/-- C1 witness: on a storage with snapshots at ts 1 and 5, `getSnapshot 3`
returns the snapshot at ts 1, which is the largest at-or-below 3. -/
theorem getSnapshot_returns_largest_le_witness :
    (snapTs 1).currentTs ≤ 3 ∧
    ∀ s' ∈ c1st.snaps, ¬ ((snapTs 1).currentTs < s'.currentTs ∧ s'.currentTs ≤ 3) := by
  have h := getSnapshot_returns_largest_le c1st 3 (by decide) (snapTs 1) rfl
  exact ⟨h.2.1, h.2.2⟩

/-! ## C4 -/

/-- C4: on a storage with a non-empty, sorted history, the one-shot
`getSnapshot(ts)` fails with exactly one of three errors, decided in this
order — SchemaStorageGCed when `ts < gcTs`, otherwise SchemaStorageUnresolved
when `ts > resolvedTs`, otherwise SnapshotNotFound when `ts` is below the
oldest snapshot's currentTs — and succeeds in all remaining cases; and only
SchemaStorageUnresolved is retryable. -/
theorem getSnapshot_error_order (st : Storage) (ts : Nat)
    (hne : st.snaps ≠ []) (hs : sortedByTs st.snaps = true) :
    (ts < st.gcTs → st.getSnapshot ts = .error .storageGCed) ∧
    (st.gcTs ≤ ts → st.resolvedTs < ts → st.getSnapshot ts = .error .storageUnresolved) ∧
    (st.gcTs ≤ ts → ts ≤ st.resolvedTs → ts < (st.snaps.headD default).currentTs →
      st.getSnapshot ts = .error .snapshotNotFound) ∧
    (st.gcTs ≤ ts → ts ≤ st.resolvedTs → (st.snaps.headD default).currentTs ≤ ts →
      ∃ s, st.getSnapshot ts = .ok s) ∧
    (∀ e, isRetryableErr e = true ↔ e = SErr.storageUnresolved) := by
  have hhead : st.snaps.headD default = st.snaps.getD 0 default := by
    cases st.snaps with
    | nil => rfl
    | cons a l => rfl
  have hlen : 0 < st.snaps.length := List.length_pos.mpr hne
  have spec := sortSearch_spec (fun k => decide ((st.snaps.getD k default).currentTs > ts))
      st.snaps.length (searchPred_mono st ts hs)
  refine ⟨?_, ?_, ?_, ?_, ?_⟩
  · intro h1
    unfold Storage.getSnapshot
    rw [if_pos h1]
  · intro h1 h2
    unfold Storage.getSnapshot
    rw [if_neg (by omega), if_pos (by omega)]
  · intro h1 h2 h3
    rw [hhead] at h3
    have hf0 : decide ((st.snaps.getD 0 default).currentTs > ts) = true := by
      simp only [decide_eq_true_eq]; omega
    have hz : sortSearch st.snaps.length
        (fun k => decide ((st.snaps.getD k default).currentTs > ts)) = 0 := by
      by_contra hnz
      have h0 : decide ((st.snaps.getD 0 default).currentTs > ts) = false :=
        spec.2.1 0 (by omega)
      rw [hf0] at h0
      cases h0
    unfold Storage.getSnapshot
    rw [if_neg (by omega), if_neg (by omega), if_pos hz]
  · intro h1 h2 h3
    rw [hhead] at h3
    have hnz : sortSearch st.snaps.length
        (fun k => decide ((st.snaps.getD k default).currentTs > ts)) ≠ 0 := by
      intro hz
      have := spec.2.2 (by omega)
      rw [hz] at this
      simp only [decide_eq_true_eq] at this
      omega
    refine ⟨st.snaps.getD
        (sortSearch st.snaps.length (fun k => decide ((st.snaps.getD k default).currentTs > ts)) - 1)
        default, ?_⟩
    unfold Storage.getSnapshot
    rw [if_neg (by omega), if_neg (by omega), if_neg hnz]
  · intro e
    cases e <;> simp [isRetryableErr]

/-- C4 witness: on the concrete storage with gc watermark 2, resolved ts 9
and snapshots at 3 and 5, each of the three failure cases and the success
case materialize, and exactly the Unresolved error is retryable. -/
theorem getSnapshot_error_order_witness :
    c4st.getSnapshot 1 = .error .storageGCed ∧
    c4st.getSnapshot 10 = .error .storageUnresolved ∧
    c4st.getSnapshot 2 = .error .snapshotNotFound ∧
    (∃ s, c4st.getSnapshot 4 = .ok s) ∧
    isRetryableErr .storageUnresolved = true ∧ isRetryableErr .storageGCed = false := by
  have h := getSnapshot_error_order c4st 4 (by simp [c4st, storageOf]) (by decide)
  refine ⟨by rfl, by rfl, by rfl, h.2.2.2.1 (by decide) (by decide) (by decide), by rfl, by rfl⟩

/-! ## C3 -/

lemma gcStartIdx_eq (ts : Nat) :
    ∀ (l : List schemaSnapshot) (i acc : Nat),
      gcStartIdx ts i acc l =
        if countLeadingLE ts l = 0 then acc else i + countLeadingLE ts l - 1 := by
  intro l
  induction l with
  | nil => intro i acc; simp [gcStartIdx, countLeadingLE]
  | cons s rest ih =>
    intro i acc
    by_cases hp : s.currentTs ≤ ts
    · have hlt : ¬ ts < s.currentTs := by omega
      rw [show gcStartIdx ts i acc (s :: rest) = gcStartIdx ts (i + 1) i rest from by
        simp [gcStartIdx, hlt]]
      rw [ih (i + 1) i]
      simp only [countLeadingLE, if_pos hp]
      by_cases hc : countLeadingLE ts rest = 0
      · rw [if_pos hc, hc]
        simp
      · rw [if_neg hc, if_neg (by omega)]
        omega
    · have hlt : ts < s.currentTs := by omega
      rw [show gcStartIdx ts i acc (s :: rest) = acc from by simp [gcStartIdx, hlt]]
      simp [countLeadingLE, hp]

lemma countLeadingLE_le_length (ts : Nat) : ∀ l : List schemaSnapshot, countLeadingLE ts l ≤ l.length := by
  intro l
  induction l with
  | nil => simp [countLeadingLE]
  | cons s rest ih =>
    by_cases hp : s.currentTs ≤ ts
    · simp only [countLeadingLE, if_pos hp, List.length_cons]
      omega
    · simp only [countLeadingLE, if_neg hp, List.length_cons]
      omega

lemma filter_eq_nil_of_all_false {p : schemaSnapshot → Bool} :
    ∀ l : List schemaSnapshot, (∀ x ∈ l, p x = false) → l.filter p = [] := by
  intro l h
  induction l with
  | nil => rfl
  | cons a rest ih =>
    rw [List.filter_cons]
    rw [h a (List.mem_cons_self a rest)]
    exact ih (fun x hx => h x (List.mem_cons_of_mem a hx))

lemma countLeadingLE_eq_filter (ts : Nat) :
    ∀ l : List schemaSnapshot, sortedByTs l = true →
      countLeadingLE ts l = (l.filter (fun s => decide (s.currentTs ≤ ts))).length := by
  intro l
  induction l with
  | nil => intro _; rfl
  | cons a rest ih =>
    intro hs
    by_cases hp : a.currentTs ≤ ts
    · rw [List.filter_cons]
      simp only [decide_eq_true_eq] at *
      rw [if_pos (by simpa using hp)]
      simp only [countLeadingLE, if_pos hp, List.length_cons]
      rw [ih (sortedByTs_tail a rest hs)]
    · rw [List.filter_cons]
      rw [if_neg (by simpa using hp)]
      simp only [countLeadingLE, if_neg hp]
      rw [filter_eq_nil_of_all_false rest (fun x hx => by
        have := sortedByTs_head_lt a rest hs x hx
        simp only [decide_eq_false_iff_not]
        omega)]
      rfl

lemma getD_lt_countLeadingLE (ts : Nat) :
    ∀ (l : List schemaSnapshot) (j : Nat), j < countLeadingLE ts l →
      (l.getD j default).currentTs ≤ ts := by
  intro l
  induction l with
  | nil => intro j hj; simp [countLeadingLE] at hj
  | cons a rest ih =>
    intro j hj
    by_cases hp : a.currentTs ≤ ts
    · cases j with
      | zero => rw [List.getD_cons_zero]; exact hp
      | succ j =>
        rw [List.getD_cons_succ]
        simp only [countLeadingLE, if_pos hp] at hj
        exact ih j (by omega)
    · simp only [countLeadingLE, if_neg hp] at hj
      omega

lemma take_countLeadingLE_le (ts : Nat) :
    ∀ (l : List schemaSnapshot) (k : Nat), k ≤ countLeadingLE ts l →
      ∀ x ∈ l.take k, x.currentTs ≤ ts := by
  intro l
  induction l with
  | nil => intro k hk x hx; simp at hx
  | cons a rest ih =>
    intro k hk x hx
    by_cases hp : a.currentTs ≤ ts
    · simp only [countLeadingLE, if_pos hp] at hk
      cases k with
      | zero => simp at hx
      | succ k =>
        rw [List.take_succ_cons] at hx
        cases hx with
        | head => exact hp
        | tail _ hx => exact ih k (by omega) x hx
    · simp only [countLeadingLE, if_neg hp] at hk
      have hk0 : k = 0 := by omega
      subst hk0
      simp at hx

lemma headD_drop {α : Type} (d : α) : ∀ (l : List α) (n : Nat), (l.drop n).headD d = l.getD n d := by
  intro l
  induction l with
  | nil => intro n; cases n <;> rfl
  | cons a rest ih =>
    intro n
    cases n with
    | zero => rfl
    | succ n =>
      rw [List.drop_succ_cons, List.getD_cons_succ]
      exact ih n

/-- C3 counterexample: with a single snapshot at ts 5 and gcTs still 0,
`DoGC 3` returns 5 (the retained oldest currentTs) but leaves gcTs at 0, so
the returned value is NOT stored into gcTs as the claim states. -/
theorem doGC_gcTs_not_always_stored :
    (c3st.DoGC 3).1 = 5 ∧ (c3st.DoGC 3).2.gcTs = 0 ∧
    ¬ ((c3st.DoGC 3).2.gcTs = (c3st.DoGC 3).1) := by decide

/-- C3 amended: with `k` the number of snapshots at or below `ts` (a leading
run, by sortedness), `DoGC ts` drops exactly the first `k - 1` snapshots —
all of which are at or below `ts` — always retains at least one snapshot,
and returns the currentTs of the new oldest snapshot, which is at or below
`ts` whenever any snapshot is.  The returned value is stored into gcTs
exactly when at least one snapshot is removed (`k ≥ 2`); otherwise gcTs is
left unchanged. -/
theorem doGC_retains_baseline (st : Storage) (ts k : Nat)
    (hne : st.snaps ≠ []) (hs : sortedByTs st.snaps = true)
    (hk : k = (st.snaps.filter (fun s => decide (s.currentTs ≤ ts))).length) :
    (st.DoGC ts).2.snaps = st.snaps.drop (k - 1) ∧
    (st.DoGC ts).2.snaps ≠ [] ∧
    (∀ s' ∈ st.snaps.take (k - 1), s'.currentTs ≤ ts) ∧
    (st.DoGC ts).1 = ((st.DoGC ts).2.snaps.headD default).currentTs ∧
    (1 ≤ k → ((st.DoGC ts).2.snaps.headD default).currentTs ≤ ts) ∧
    (2 ≤ k → (st.DoGC ts).2.gcTs = (st.DoGC ts).1) ∧
    (k ≤ 1 → (st.DoGC ts).2.gcTs = st.gcTs) := by
  have hc : countLeadingLE ts st.snaps = k := by
    rw [hk]; exact countLeadingLE_eq_filter ts st.snaps hs
  have hklen : k ≤ st.snaps.length := by
    rw [← hc]; exact countLeadingLE_le_length ts st.snaps
  have hsi : gcStartIdx ts 0 0 st.snaps = k - 1 := by
    rw [gcStartIdx_eq ts st.snaps 0 0, hc]
    by_cases hk0 : k = 0
    · rw [if_pos hk0]; omega
    · rw [if_neg hk0]; omega
  have hlen : 0 < st.snaps.length := List.length_pos.mpr hne
  by_cases hk1 : k ≤ 1
  · have hz : gcStartIdx ts 0 0 st.snaps = 0 := by omega
    have hgc : st.DoGC ts = ((st.snaps.headD default).currentTs, st) := by
      unfold Storage.DoGC
      rw [if_pos hz]
    rw [hgc]
    refine ⟨by simpa using (by rw [show k - 1 = 0 from by omega, List.drop_zero]), hne, ?_, rfl, ?_, ?_, fun _ => rfl⟩
    · intro s' hmem
      exact take_countLeadingLE_le ts st.snaps (k - 1) (by omega) s' hmem
    · intro h1
      have hk' : k = 1 := by omega
      have := getD_lt_countLeadingLE ts st.snaps 0 (by omega)
      cases hsnaps : st.snaps with
      | nil => exact absurd hsnaps hne
      | cons a rest =>
        rw [hsnaps, List.getD_cons_zero] at this
        simpa using this
    · intro h2; omega
  · have hnz : gcStartIdx ts 0 0 st.snaps ≠ 0 := by omega
    have hgc : st.DoGC ts =
        (((st.snaps.drop (gcStartIdx ts 0 0 st.snaps)).headD default).currentTs,
         { st with
           snaps := st.snaps.drop (gcStartIdx ts 0 0 st.snaps)
           gcTs := ((st.snaps.drop (gcStartIdx ts 0 0 st.snaps)).headD default).currentTs }) := by
      unfold Storage.DoGC
      rw [if_neg hnz]
    rw [hgc, hsi]
    refine ⟨rfl, ?_, ?_, rfl, ?_, fun _ => rfl, ?_⟩
    · apply List.length_pos.mp
      rw [List.length_drop]
      omega
    · intro s' hmem
      exact take_countLeadingLE_le ts st.snaps (k - 1) (by omega) s' hmem
    · intro h1
      rw [headD_drop]
      exact getD_lt_countLeadingLE ts st.snaps (k - 1) (by omega)
    · intro h1; omega

/-- C3 witness (spec scenario 6): with snapshots at ts 1, 5, 7, 9, `DoGC 6`
drops only the snapshot at ts 1, returns 5, stores 5 into gcTs, and
afterwards `getSnapshot 4` fails with SchemaStorageGCed while `getSnapshot 5`
and `getSnapshot 8` return the snapshots at ts 5 and 7. -/
theorem doGC_retains_baseline_witness :
    (c3st4.DoGC 6).2.snaps = c3st4.snaps.drop 1 ∧
    (c3st4.DoGC 6).2.gcTs = (c3st4.DoGC 6).1 ∧
    (c3st4.DoGC 6).1 = 5 ∧
    (c3st4.DoGC 6).2.getSnapshot 4 = .error .storageGCed ∧
    ((c3st4.DoGC 6).2.getSnapshot 5).toOption.map schemaSnapshot.currentTs = some 5 ∧
    ((c3st4.DoGC 6).2.getSnapshot 8).toOption.map schemaSnapshot.currentTs = some 7 := by
  have h := doGC_retains_baseline c3st4 6 2 (by simp [c3st4, storageOf]) (by decide) (by decide)
  exact ⟨h.1, h.2.2.2.2.2.1 (by omega), by decide, by rfl, by decide, by decide⟩

/-! ## C5 and C8 -/

/-- C5: for any storage and any non-skipped job that is not a stale
duplicate, if applying the DDL to the clone of the latest snapshot fails,
then HandleDDLJob returns exactly that error and the whole storage state —
history and resolvedTs included — is unchanged. -/
theorem handleDDLJob_error_leaves_state (st : Storage) (job : Job)
    (lastSnap : schemaSnapshot) (e : SErr)
    (hskip : st.skipJob job = false)
    (hlast : st.snaps.getLast? = some lastSnap)
    (hfresh : lastSnap.currentTs < job.binlogInfo.finishedTS)
    (hfail : lastSnap.Clone.handleDDL job = .error e) :
    st.HandleDDLJob job = (some e, st) := by
  unfold Storage.HandleDDLJob
  rw [if_neg (by simp [hskip]), hlast]
  simp only []
  rw [if_neg (by omega), hfail]

/-- C5 witness: dropping the nonexistent table 42 at ts 10 on the storage
holding only c2snap (ts 1) fails with TableNotFound and leaves the storage
untouched. -/
theorem handleDDLJob_error_leaves_state_witness :
    c5st.HandleDDLJob c5job = (some (.tableNotFound 42), c5st) := by
  exact handleDDLJob_error_leaves_state c5st c5job c2snap (.tableNotFound 42)
    (by decide) rfl (by decide) rfl

/-- C8: a non-skipped job whose finishedTS is at or below the latest
snapshot's currentTs is silently accepted: no error, no snapshot appended,
the storage fully unchanged (idempotent replay). -/
theorem handleDDLJob_idempotent_replay (st : Storage) (job : Job)
    (lastSnap : schemaSnapshot)
    (hskip : st.skipJob job = false)
    (hlast : st.snaps.getLast? = some lastSnap)
    (hdup : job.binlogInfo.finishedTS ≤ lastSnap.currentTs) :
    st.HandleDDLJob job = (none, st) := by
  unfold Storage.HandleDDLJob
  rw [if_neg (by simp [hskip]), hlast]
  simp only []
  rw [if_pos hdup]

/-- C8 witness: re-delivering a job with finishedTS 1 against the storage
whose latest snapshot is at ts 1 is a no-op success. -/
theorem handleDDLJob_idempotent_replay_witness :
    c5st.HandleDDLJob c8job = (none, c5st) := by
  exact handleDDLJob_idempotent_replay c5st c8job c2snap (by decide) rfl (by decide)

/-! ## C2 -/

/-- C2 (code-bug exhibit): starting from a consistent snapshot in which the
ineligible table 100 is present, DropSchema(db1) succeeds but leaves 100 in
`ineligibleTableID` while removing it from both `tables` and
`partitionTable` — invariant 5 (`ineligible_ids ⊆ tables.keys ∪
partition_index.keys`) is violated after the DDL. -/
theorem dropSchema_leaks_ineligible :
    (c2snap.tables 100).isSome = true ∧ c2snap.ineligibleTableID 100 = true ∧
    (c2snap.handleDDL c2job).toOption.map
      (fun s' => (s'.ineligibleTableID 100, (s'.tables 100).isSome, (s'.partitionTable 100).isSome))
      = some (true, false, false) := by decide

/-! ## C10 -/

lemma advanceResolvedTs_snaps (st : Storage) (ts : Nat) :
    (st.AdvanceResolvedTs ts).snaps = st.snaps := by
  unfold Storage.AdvanceResolvedTs
  by_cases h : ts < st.resolvedTs
  · rw [if_pos h]
  · rw [if_neg h]

lemma handleDDLJob_snaps_ne (st : Storage) (job : Job) (hne : st.snaps ≠ []) :
    (st.HandleDDLJob job).2.snaps ≠ [] := by
  unfold Storage.HandleDDLJob
  by_cases hskip : st.skipJob job = true
  · rw [if_pos hskip]
    simpa [advanceResolvedTs_snaps] using hne
  · rw [if_neg hskip]
    cases hlast : st.snaps.getLast? with
    | none =>
      simp only []
      cases happ : (newEmptySchemaSnapshot st.forceReplicate).handleDDL job with
      | error e => exact hne
      | ok snap => simp [advanceResolvedTs_snaps]
    | some lastSnap =>
      simp only []
      by_cases hdup : job.binlogInfo.finishedTS ≤ lastSnap.currentTs
      · rw [if_pos hdup]; exact hne
      · rw [if_neg hdup]
        cases happ : lastSnap.Clone.handleDDL job with
        | error e => exact hne
        | ok snap => simp [advanceResolvedTs_snaps]

lemma doGC_snaps_ne (st : Storage) (ts : Nat) (hne : st.snaps ≠ []) :
    (st.DoGC ts).2.snaps ≠ [] := by
  unfold Storage.DoGC
  by_cases hz : gcStartIdx ts 0 0 st.snaps = 0
  · rw [if_pos hz]; exact hne
  · rw [if_neg hz]
    have hsi := gcStartIdx_eq ts st.snaps 0 0
    have hc := countLeadingLE_le_length ts st.snaps
    have hlen : 0 < st.snaps.length := List.length_pos.mpr hne
    simp only []
    apply List.length_pos.mp
    rw [List.length_drop]
    rw [hsi] at hz
    by_cases hc0 : countLeadingLE ts st.snaps = 0
    · rw [if_pos hc0] at hz; omega
    · rw [if_neg hc0] at hz
      rw [hsi, if_neg hc0]
      omega

lemma getLast?_isSome_of_ne {α : Type} : ∀ (l : List α), l ≠ [] → l.getLast?.isSome = true := by
  intro l
  induction l with
  | nil => intro h; exact absurd rfl h
  | cons a rest ih =>
    intro _
    cases hr : rest with
    | nil => rfl
    | cons b r =>
      rw [List.getLast?_cons_cons]
      have := ih (by simp [hr])
      rw [hr] at this
      exact this

/-- C10: every storage reachable from construction through any sequence of
HandleDDLJob and DoGC calls has a non-empty snapshot history, so
GetLastSnapshot (last element) and DoGC (element 0) never index out of
range. -/
theorem storage_snaps_never_empty (st : Storage) (h : Reachable st) :
    st.snaps ≠ [] ∧ st.GetLastSnapshot.isSome = true ∧ st.snaps.head?.isSome = true := by
  have hne : st.snaps ≠ [] := by
    induction h with
    | init snap startTs f fr => simp [NewSchemaStorage]
    | ddl st' job hr ih => exact handleDDLJob_snaps_ne st' job ih
    | gc st' ts hr ih => exact doGC_snaps_ne st' ts ih
  refine ⟨hne, getLast?_isSome_of_ne st.snaps hne, ?_⟩
  cases hl : st.snaps with
  | nil => exact absurd hl hne
  | cons a rest => rfl

/-- C10 witness: a freshly constructed storage is reachable and its history
is the one-element list holding the bootstrap snapshot. -/
theorem storage_snaps_never_empty_witness :
    (NewSchemaStorage (newEmptySchemaSnapshot false) 0 none false).snaps ≠ [] ∧
    (NewSchemaStorage (newEmptySchemaSnapshot false) 0 none false).GetLastSnapshot.isSome = true := by
  have h := storage_snaps_never_empty (NewSchemaStorage (newEmptySchemaSnapshot false) 0 none false)
    (Reachable.init (newEmptySchemaSnapshot false) 0 none false)
  exact ⟨h.1, h.2.1⟩

/-! ## C6 -/

/-- C6: a RenameTables job with fewer MultipleTableInfos than new table
names fails the validation with InvalidDDLJob; and on the concrete
name-swap scenario (tables 100=a, 200=b renamed to b and a at ts 11) the
two-phase drop-then-create application succeeds without any TableExists
error, after which name a maps to id 200 and name b maps to id 100. -/
theorem renameTables_drops_then_creates :
    (∀ (s : schemaSnapshot) (job : Job),
        job.binlogInfo.multipleTableInfos.length < job.newTableNames.length →
        s.renameTables job = .error .invalidDDLJob) ∧
    ((c6snap.handleDDL c6job).toOption.map
       (fun s' => (s'.tableNameToID { schema := "db1", table := "a" },
                   s'.tableNameToID { schema := "db1", table := "b" }, s'.currentTs))
      = some (some 200, some 100, 11)) := by
  constructor
  · intro s job h
    unfold schemaSnapshot.renameTables
    rw [if_pos h]
  · decide

/-- C6 witness: the validation arm fires on a job with an empty info list
and one new name. -/
theorem renameTables_drops_then_creates_witness :
    (newEmptySchemaSnapshot false).renameTables c6badJob = .error .invalidDDLJob :=
  renameTables_drops_then_creates.1 (newEmptySchemaSnapshot false) c6badJob (by decide)

/-! ## C9 -/

lemma GoSet.insert_mono (S : GoSet) (k id : Int) (h : S id = true) :
    GoSet.insert S k id = true := by
  unfold GoSet.insert
  by_cases hik : id = k
  · rw [if_pos hik]
  · rw [if_neg hik]; exact h

lemma addPartDefs_forceReplicate (tbl : TableInfo) :
    ∀ (defs : List PartitionDef) (s : schemaSnapshot),
      (addPartDefs tbl s defs).forceReplicate = s.forceReplicate := by
  intro defs
  induction defs with
  | nil => intro s; rfl
  | cons p rest ih =>
    intro s
    simp only [addPartDefs]
    by_cases h : tbl.IsEligible s.forceReplicate = true
    · rw [if_pos h]
      exact ih _
    · rw [if_neg h]
      exact ih _

lemma addPartDefs_tables (tbl : TableInfo) :
    ∀ (defs : List PartitionDef) (s : schemaSnapshot),
      (addPartDefs tbl s defs).tables = s.tables := by
  intro defs
  induction defs with
  | nil => intro s; rfl
  | cons p rest ih =>
    intro s
    simp only [addPartDefs]
    by_cases h : tbl.IsEligible s.forceReplicate = true
    · rw [if_pos h]; exact ih _
    · rw [if_neg h]; exact ih _

lemma addPartDefs_truncate (tbl : TableInfo) :
    ∀ (defs : List PartitionDef) (s : schemaSnapshot),
      (addPartDefs tbl s defs).truncateTableID = s.truncateTableID := by
  intro defs
  induction defs with
  | nil => intro s; rfl
  | cons p rest ih =>
    intro s
    simp only [addPartDefs]
    by_cases h : tbl.IsEligible s.forceReplicate = true
    · rw [if_pos h]; exact ih _
    · rw [if_neg h]; exact ih _

lemma addPartDefs_inelig_mono (tbl : TableInfo) (id : Int) :
    ∀ (defs : List PartitionDef) (s : schemaSnapshot),
      s.ineligibleTableID id = true →
      (addPartDefs tbl s defs).ineligibleTableID id = true := by
  intro defs
  induction defs with
  | nil => intro s h; exact h
  | cons p rest ih =>
    intro s h
    simp only [addPartDefs]
    by_cases he : tbl.IsEligible s.forceReplicate = true
    · rw [if_pos he]
      exact ih _ h
    · rw [if_neg he]
      exact ih _ (GoSet.insert_mono _ _ _ h)

lemma addPartDefs_inelig_eligible (tbl : TableInfo) :
    ∀ (defs : List PartitionDef) (s : schemaSnapshot),
      tbl.IsEligible s.forceReplicate = true →
      (addPartDefs tbl s defs).ineligibleTableID = s.ineligibleTableID := by
  intro defs
  induction defs with
  | nil => intro s _; rfl
  | cons p rest ih =>
    intro s he
    simp only [addPartDefs]
    rw [if_pos he]
    exact ih _ he

/-- C9: whenever replaceTable succeeds, no id is ever removed from
`ineligibleTableID`; in particular if the incoming table info is eligible
the set is completely unchanged, so a table id recorded ineligible before
the replace is still reported ineligible afterwards. -/
theorem replaceTable_preserves_ineligible (s s' : schemaSnapshot) (tbl : TableInfo)
    (h : s.replaceTable tbl = .ok s') :
    (∀ id, s.ineligibleTableID id = true → s'.ineligibleTableID id = true) ∧
    (tbl.IsEligible s.forceReplicate = true → s'.ineligibleTableID = s.ineligibleTableID) ∧
    (s.ineligibleTableID tbl.id = true → s'.IsIneligibleTableID tbl.id = true) := by
  unfold schemaSnapshot.replaceTable at h
  cases hex : s.tables tbl.id with
  | none => rw [hex] at h; cases h
  | some old =>
    rw [hex] at h
    simp only [] at h
    injection h with h
    subst h
    cases hpi : tbl.GetPartitionInfo with
    | none =>
      simp only []
      by_cases he : tbl.IsEligible s.forceReplicate = true
      · rw [if_pos he]
        exact ⟨fun id hid => hid, fun _ => rfl, fun hid => hid⟩
      · rw [if_neg he]
        refine ⟨fun id hid => GoSet.insert_mono _ _ _ hid, fun he2 => absurd he2 he,
          fun hid => GoSet.insert_mono _ _ _ hid⟩
    | some pi =>
      simp only []
      by_cases he : tbl.IsEligible s.forceReplicate = true
      · rw [if_pos he]
        refine ⟨fun id hid => addPartDefs_inelig_mono tbl id _ _ hid, fun _ => ?_,
          fun hid => addPartDefs_inelig_mono tbl tbl.id _ _ hid⟩
        exact addPartDefs_inelig_eligible tbl pi.definitions _ he
      · rw [if_neg he]
        exact ⟨fun id hid => addPartDefs_inelig_mono tbl id _ _ (GoSet.insert_mono _ _ _ hid),
          fun he2 => absurd he2 he,
          fun hid => addPartDefs_inelig_mono tbl tbl.id _ _ (GoSet.insert_mono _ _ _ hid)⟩

/-- C9 witness: replacing the recorded-ineligible table 5 with an eligible
info succeeds and leaves the ineligible set untouched, so 5 still reports
ineligible. -/
theorem replaceTable_preserves_ineligible_witness :
    c9res.IsIneligibleTableID 5 = true ∧ c9res.ineligibleTableID = c9snap.ineligibleTableID := by
  have h := replaceTable_preserves_ineligible c9snap c9res c9tblNew rfl
  exact ⟨h.2.2 rfl, h.2.1 rfl⟩

/-! ## C7 -/

lemma GoMap.insert_get_self {κ α : Type} [DecidableEq κ] (m : GoMap κ α) (k : κ) (v : α) :
    GoMap.insert m k v k = some v := by
  unfold GoMap.insert
  rw [if_pos rfl]

lemma GoMap.insert_get_ne {κ α : Type} [DecidableEq κ] (m : GoMap κ α) (k x : κ) (v : α)
    (h : x ≠ k) : GoMap.insert m k v x = m x := by
  unfold GoMap.insert
  rw [if_neg h]

lemma GoMap.erase_get_none {κ α : Type} [DecidableEq κ] (m : GoMap κ α) (k x : κ)
    (h : m x = none) : GoMap.erase m k x = none := by
  unfold GoMap.erase
  by_cases hx : x = k
  · rw [if_pos hx]
  · rw [if_neg hx]; exact h

lemma GoMap.erase_get_self {κ α : Type} [DecidableEq κ] (m : GoMap κ α) (k : κ) :
    GoMap.erase m k k = none := by
  unfold GoMap.erase
  rw [if_pos rfl]

lemma GoMap.erase_get_ne {κ α : Type} [DecidableEq κ] (m : GoMap κ α) (k x : κ)
    (h : x ≠ k) : GoMap.erase m k x = m x := by
  unfold GoMap.erase
  rw [if_neg h]

lemma GoSet.insert_self_true (S : GoSet) (k : Int) : GoSet.insert S k k = true := by
  unfold GoSet.insert
  rw [if_pos rfl]

lemma GoSet.insert_other_id (S : GoSet) (k x : Int) (h : x ≠ k) : GoSet.insert S k x = S x := by
  unfold GoSet.insert
  rw [if_neg h]

lemma GoSet.erase_get_false (S : GoSet) (k x : Int) (h : S x = false) :
    GoSet.erase S k x = false := by
  unfold GoSet.erase
  by_cases hx : x = k
  · rw [if_pos hx]
  · rw [if_neg hx]; exact h

lemma GoSet.erase_self_false (S : GoSet) (k : Int) : GoSet.erase S k k = false := by
  unfold GoSet.erase
  rw [if_pos rfl]

lemma GoSet.erase_other_id (S : GoSet) (k x : Int) (h : x ≠ k) : GoSet.erase S k x = S x := by
  unfold GoSet.erase
  rw [if_neg h]

lemma addPartDefs_partitionTable_stable (tbl : TableInfo) (pid : Int) :
    ∀ (defs : List PartitionDef) (s : schemaSnapshot),
      s.partitionTable pid = some tbl →
      (addPartDefs tbl s defs).partitionTable pid = some tbl := by
  intro defs
  induction defs with
  | nil => intro s h; exact h
  | cons p rest ih =>
    intro s h
    simp only [addPartDefs]
    have hins : GoMap.insert s.partitionTable p.id tbl pid = some tbl := by
      by_cases hp : pid = p.id
      · rw [hp]; exact GoMap.insert_get_self _ _ _
      · rw [GoMap.insert_get_ne _ _ _ _ hp]; exact h
    by_cases he : tbl.IsEligible s.forceReplicate = true
    · rw [if_pos he]; exact ih _ hins
    · rw [if_neg he]; exact ih _ hins

lemma addPartDefs_partitionTable_of_mem (tbl : TableInfo) (pid : Int) :
    ∀ (defs : List PartitionDef) (s : schemaSnapshot),
      pid ∈ defs.map PartitionDef.id →
      (addPartDefs tbl s defs).partitionTable pid = some tbl := by
  intro defs
  induction defs with
  | nil => intro s h; cases h
  | cons p rest ih =>
    intro s h
    rw [List.map_cons] at h
    simp only [addPartDefs]
    rcases List.mem_cons.mp h with hp | h2
    · subst hp
      by_cases he : tbl.IsEligible s.forceReplicate = true
      · rw [if_pos he]
        exact addPartDefs_partitionTable_stable tbl _ rest _ (GoMap.insert_get_self _ _ _)
      · rw [if_neg he]
        exact addPartDefs_partitionTable_stable tbl _ rest _ (GoMap.insert_get_self _ _ _)
    · by_cases he : tbl.IsEligible s.forceReplicate = true
      · rw [if_pos he]; exact ih _ h2
      · rw [if_neg he]; exact ih _ h2

lemma addPartDefs_partitionTable_of_not_mem (tbl : TableInfo) (pid : Int) :
    ∀ (defs : List PartitionDef) (s : schemaSnapshot),
      pid ∉ defs.map PartitionDef.id →
      (addPartDefs tbl s defs).partitionTable pid = s.partitionTable pid := by
  intro defs
  induction defs with
  | nil => intro s _; rfl
  | cons p rest ih =>
    intro s h
    rw [List.map_cons] at h
    have hne : pid ≠ p.id := fun hp => h (by rw [hp]; exact List.mem_cons_self _ _)
    have h2 : pid ∉ rest.map PartitionDef.id := fun hm => h (List.mem_cons_of_mem _ hm)
    simp only [addPartDefs]
    by_cases he : tbl.IsEligible s.forceReplicate = true
    · rw [if_pos he, ih _ h2]
      exact GoMap.insert_get_ne _ _ _ _ hne
    · rw [if_neg he, ih _ h2]
      exact GoMap.insert_get_ne _ _ _ _ hne

lemma addPartDefs_inelig_of_mem (tbl : TableInfo) (pid : Int) :
    ∀ (defs : List PartitionDef) (s : schemaSnapshot),
      tbl.IsEligible s.forceReplicate = false →
      pid ∈ defs.map PartitionDef.id →
      (addPartDefs tbl s defs).ineligibleTableID pid = true := by
  intro defs
  induction defs with
  | nil => intro s _ h; cases h
  | cons p rest ih =>
    intro s he h
    rw [List.map_cons] at h
    simp only [addPartDefs]
    rw [if_neg (by rw [he]; exact Bool.false_ne_true)]
    rcases List.mem_cons.mp h with hp | h2
    · subst hp
      exact addPartDefs_inelig_mono tbl _ rest _ (GoSet.insert_self_true _ _)
    · exact ih _ he h2

lemma addPartDefs_inelig_of_not_mem (tbl : TableInfo) (pid : Int) :
    ∀ (defs : List PartitionDef) (s : schemaSnapshot),
      pid ∉ defs.map PartitionDef.id →
      (addPartDefs tbl s defs).ineligibleTableID pid = s.ineligibleTableID pid := by
  intro defs
  induction defs with
  | nil => intro s _; rfl
  | cons p rest ih =>
    intro s h
    rw [List.map_cons] at h
    have hne : pid ≠ p.id := fun hp => h (by rw [hp]; exact List.mem_cons_self _ _)
    have h2 : pid ∉ rest.map PartitionDef.id := fun hm => h (List.mem_cons_of_mem _ hm)
    simp only [addPartDefs]
    by_cases he : tbl.IsEligible s.forceReplicate = true
    · rw [if_pos he, ih _ h2]
    · rw [if_neg he, ih _ h2]
      exact GoSet.insert_other_id _ _ _ hne

lemma dropOldParts_tables : ∀ (lst : List Int) (s : schemaSnapshot),
    (dropOldParts s lst).tables = s.tables := by
  intro lst
  induction lst with
  | nil => intro s; rfl
  | cons q rest ih => intro s; simp only [dropOldParts]; exact ih _

lemma dropOldParts_trunc_mono (pid : Int) : ∀ (lst : List Int) (s : schemaSnapshot),
    s.truncateTableID pid = true → (dropOldParts s lst).truncateTableID pid = true := by
  intro lst
  induction lst with
  | nil => intro s h; exact h
  | cons q rest ih =>
    intro s h
    simp only [dropOldParts]
    exact ih _ (GoSet.insert_mono _ _ _ h)

lemma dropOldParts_pt_none (pid : Int) : ∀ (lst : List Int) (s : schemaSnapshot),
    s.partitionTable pid = none → (dropOldParts s lst).partitionTable pid = none := by
  intro lst
  induction lst with
  | nil => intro s h; exact h
  | cons q rest ih =>
    intro s h
    simp only [dropOldParts]
    exact ih _ (GoMap.erase_get_none _ _ _ h)

lemma dropOldParts_inelig_false (pid : Int) : ∀ (lst : List Int) (s : schemaSnapshot),
    s.ineligibleTableID pid = false → (dropOldParts s lst).ineligibleTableID pid = false := by
  intro lst
  induction lst with
  | nil => intro s h; exact h
  | cons q rest ih =>
    intro s h
    simp only [dropOldParts]
    exact ih _ (GoSet.erase_get_false _ _ _ h)

lemma dropOldParts_of_mem (pid : Int) : ∀ (lst : List Int) (s : schemaSnapshot),
    pid ∈ lst →
    (dropOldParts s lst).truncateTableID pid = true ∧
    (dropOldParts s lst).partitionTable pid = none ∧
    (dropOldParts s lst).ineligibleTableID pid = false := by
  intro lst
  induction lst with
  | nil => intro s h; cases h
  | cons q rest ih =>
    intro s h
    simp only [dropOldParts]
    rcases List.mem_cons.mp h with hp | h2
    · subst hp
      exact ⟨dropOldParts_trunc_mono _ rest _ (GoSet.insert_self_true _ _),
        dropOldParts_pt_none _ rest _ (GoMap.erase_get_self _ _),
        dropOldParts_inelig_false _ rest _ (GoSet.erase_self_false _ _)⟩
    · exact ih _ h2

lemma dropOldParts_of_not_mem (pid : Int) : ∀ (lst : List Int) (s : schemaSnapshot),
    pid ∉ lst →
    (dropOldParts s lst).truncateTableID pid = s.truncateTableID pid ∧
    (dropOldParts s lst).partitionTable pid = s.partitionTable pid ∧
    (dropOldParts s lst).ineligibleTableID pid = s.ineligibleTableID pid := by
  intro lst
  induction lst with
  | nil => intro s _; exact ⟨rfl, rfl, rfl⟩
  | cons q rest ih =>
    intro s h
    have hne : pid ≠ q := fun hp => h (by rw [hp]; exact List.mem_cons_self _ _)
    have h2 : pid ∉ rest := fun hm => h (List.mem_cons_of_mem _ hm)
    simp only [dropOldParts]
    have hr := ih ({ s with
        truncateTableID := GoSet.insert s.truncateTableID q
        partitionTable := GoMap.erase s.partitionTable q
        ineligibleTableID := GoSet.erase s.ineligibleTableID q }) h2
    refine ⟨?_, ?_, ?_⟩
    · rw [hr.1]; exact GoSet.insert_other_id _ _ _ hne
    · rw [hr.2.1]; exact GoMap.erase_get_ne _ _ _ hne
    · rw [hr.2.2]; exact GoSet.erase_other_id _ _ _ hne

/-- C7 counterexample: the existing table 100 (partition 10) is ineligible
and partition 10 is recorded in ineligible_ids; applying an update whose
incoming info is eligible with the same partition 10 succeeds, yet 10 stays
in ineligible_ids — so "pid ∈ ineligible_ids iff the table is ineligible"
fails in the only-if direction. -/
theorem updatePartition_ineligible_not_iff :
    (c7snap.updatePartition c7tnew).toOption.map
      (fun s' => (c7tnew.IsEligible c7snap.forceReplicate, s'.ineligibleTableID 10))
      = some (true, true) := by decide

/-- C7 amended: for an Add/Drop/Truncate partition update on an existing
partitioned table with a partitioned incoming info, the operation succeeds:
the table record is replaced; every incoming partition id maps to the new
record in partition_index and is inserted into ineligible_ids when the
incoming table is ineligible (stale entries are not removed when it is
eligible); every id of the old partition set absent from the new one is
marked truncated and removed from partition_index and ineligible_ids.  The
operation fails with TableNotFound when the table is missing or when either
the existing or the incoming record is not partitioned. -/
theorem updatePartition_reconciles :
    (∀ (s : schemaSnapshot) (tbl existing : TableInfo) (oldPi newPi : PartitionInfo),
      s.tables tbl.id = some existing →
      existing.GetPartitionInfo = some oldPi →
      tbl.GetPartitionInfo = some newPi →
      ∃ s', s.updatePartition tbl = .ok s' ∧
        s'.tables tbl.id = some tbl ∧
        (∀ pid, pid ∈ newPi.definitions.map PartitionDef.id →
          s'.partitionTable pid = some tbl ∧
          (tbl.IsEligible s.forceReplicate = false → s'.ineligibleTableID pid = true)) ∧
        (∀ pid, pid ∈ oldPi.definitions.map PartitionDef.id →
          pid ∉ newPi.definitions.map PartitionDef.id →
          s'.truncateTableID pid = true ∧ s'.partitionTable pid = none ∧
          s'.ineligibleTableID pid = false)) ∧
    (∀ (s : schemaSnapshot) (tbl : TableInfo), s.tables tbl.id = none →
      s.updatePartition tbl = .error (.tableNotFound tbl.id)) ∧
    (∀ (s : schemaSnapshot) (tbl existing : TableInfo),
      s.tables tbl.id = some existing → existing.GetPartitionInfo = none →
      s.updatePartition tbl = .error (.tableNotFound tbl.id)) ∧
    (∀ (s : schemaSnapshot) (tbl existing : TableInfo) (oldPi : PartitionInfo),
      s.tables tbl.id = some existing → existing.GetPartitionInfo = some oldPi →
      tbl.GetPartitionInfo = none →
      s.updatePartition tbl = .error (.tableNotFound tbl.id)) := by
  refine ⟨?_, ?_, ?_, ?_⟩
  · intro s tbl existing oldPi newPi hex hold hnew
    have heq : s.updatePartition tbl = .ok (dropOldParts
        (addPartDefs tbl { s with tables := GoMap.insert s.tables tbl.id tbl } newPi.definitions)
        ((oldPi.definitions.map PartitionDef.id).filter
          (fun pid => !(decide (pid ∈ newPi.definitions.map PartitionDef.id))))) := by
      unfold schemaSnapshot.updatePartition
      rw [hex]
      simp only []
      rw [hold]
      simp only []
      rw [hnew]
    refine ⟨_, heq, ?_, ?_, ?_⟩
    · rw [dropOldParts_tables, addPartDefs_tables]
      exact GoMap.insert_get_self _ _ _
    · intro pid hmem
      have hnotrem : pid ∉ (oldPi.definitions.map PartitionDef.id).filter
          (fun pid => !(decide (pid ∈ newPi.definitions.map PartitionDef.id))) := by
        intro hr
        have h2 := (List.mem_filter.mp hr).2
        simp only [Bool.not_eq_true', decide_eq_false_iff_not] at h2
        exact h2 hmem
      have hdp := dropOldParts_of_not_mem pid
        ((oldPi.definitions.map PartitionDef.id).filter
          (fun pid => !(decide (pid ∈ newPi.definitions.map PartitionDef.id))))
        (addPartDefs tbl { s with tables := GoMap.insert s.tables tbl.id tbl } newPi.definitions)
        hnotrem
      refine ⟨?_, ?_⟩
      · rw [hdp.2.1]
        exact addPartDefs_partitionTable_of_mem tbl pid newPi.definitions _ hmem
      · intro hinel
        rw [hdp.2.2]
        exact addPartDefs_inelig_of_mem tbl pid newPi.definitions _ hinel hmem
    · intro pid hmemo hnotnew
      have hrem : pid ∈ (oldPi.definitions.map PartitionDef.id).filter
          (fun pid => !(decide (pid ∈ newPi.definitions.map PartitionDef.id))) := by
        apply List.mem_filter.mpr
        refine ⟨hmemo, ?_⟩
        simp only [Bool.not_eq_true', decide_eq_false_iff_not]
        exact hnotnew
      exact dropOldParts_of_mem pid _ _ hrem
  · intro s tbl hex
    unfold schemaSnapshot.updatePartition
    rw [hex]
  · intro s tbl existing hex hold
    unfold schemaSnapshot.updatePartition
    rw [hex]
    simp only []
    rw [hold]
  · intro s tbl existing oldPi hex hold hnew
    unfold schemaSnapshot.updatePartition
    rw [hex]
    simp only []
    rw [hold]
    simp only []
    rw [hnew]

/-- C7 witness (spec scenario 3): dropping partition 30 from the table with
partitions 10, 20, 30 leaves 10 and 20 mapped to the new record, removes 30
from partition_index, and marks 30 truncated. -/
theorem updatePartition_reconciles_witness :
    ∃ s', c7bigSnap.updatePartition c7bigNew = .ok s' ∧
      s'.partitionTable 10 = some c7bigNew ∧ s'.partitionTable 20 = some c7bigNew ∧
      s'.partitionTable 30 = none ∧ s'.truncateTableID 30 = true ∧
      s'.ineligibleTableID 30 = false := by
  obtain ⟨s', heq, htab, hnew, hold⟩ := updatePartition_reconciles.1 c7bigSnap c7bigNew c7big
    { definitions := [{ id := 10 }, { id := 20 }, { id := 30 }] }
    { definitions := [{ id := 10 }, { id := 20 }] } (by decide) rfl rfl
  exact ⟨s', heq, (hnew 10 (by decide)).1, (hnew 20 (by decide)).1,
    (hold 30 (by decide) (by decide)).2.1,
    (hold 30 (by decide) (by decide)).1,
    (hold 30 (by decide) (by decide)).2.2⟩
